import Mathlib

/-!
Verification of the request/authentication core of the go-gerrit client
library (shallow embedding of `src/request.go`, `src/unnamed/part_007`,
`src/unnamed/part_003`, `src/changes.go`, `src/accounts.go`,
`src/unnamed/part_009`).

Conventions of the embedding:
* Go strings are Lean `String`s; byte-level work happens on `List Char`.
* `http.Request` is `GoRequest`, a record of the fields the core touches.
* Functions that can fail in Go (`error` returns) produce `Except`/`Option`.
* The HTTP exchange itself is external; `Do`/`Call` are embedded as pure
  functions of the response the transport produced.
* `encoding/json` marshalling is embedded by the `Json` value type together
  with an executable renderer and an executable decoder.
* Helpers of the repository that are referenced but whose defining file is
  not under `src/` (`SetBaseURL`, `CheckResponse`, `RemoveMagicPrefixLine`,
  `addOptions`) are modelled from the spec; each such definition says so in
  its doc comment.
-/

namespace GoGerrit

/- ### Character constants (kept symbolic to avoid delicate literals) -/

/-- The double-quote character. -/
def quoteChar : Char := Char.ofNat 34

/-- The backslash character. -/
def backslashChar : Char := Char.ofNat 92

/-- The opening curly bracket character. -/
def lcurly : Char := Char.ofNat 123

/-- The closing curly bracket character. -/
def rcurly : Char := Char.ofNat 125

/-- The apostrophe character (part of the magic sentinel). -/
def apos : Char := Char.ofNat 39

/- ### Go string helpers used by the request layer -/

/-- Embedding of Go `strings.TrimPrefix(s, pre)`: drop `pre` when it is a
leading segment of `s`, otherwise return `s` unchanged. -/
def goTrimPre (s pre : String) : String :=
  if pre.data.isPrefixOf s.data then ⟨s.data.drop pre.data.length⟩ else s

/-- Embedding of Go `strings.Trim(s, cutset)`: remove all leading and
trailing characters that occur in `cutset`. -/
def goTrim (s : String) (cutset : List Char) : String :=
  ⟨((s.data.dropWhile (cutset.contains ·)).reverse.dropWhile
      (cutset.contains ·)).reverse⟩

/- ### The JSON value model (for `encoding/json` payloads and bodies) -/

mutual

/-- JSON values, the space of marshalable Go payloads and of decoded
response bodies. -/
inductive Json where
  | null : Json
  | bool (b : Bool) : Json
  | num (n : Int) : Json
  | str (s : String) : Json
  | arr (elems : JsonList) : Json
  | obj (fields : JsonObj) : Json
  deriving DecidableEq

/-- A list of JSON values (kept mutual for clean recursion). -/
inductive JsonList where
  | nil : JsonList
  | cons (hd : Json) (tl : JsonList) : JsonList
  deriving DecidableEq

/-- The field list of a JSON object: key/value pairs in order. -/
inductive JsonObj where
  | nil : JsonObj
  | cons (key : String) (val : Json) (tl : JsonObj) : JsonObj
  deriving DecidableEq

end

/-- Decimal digit character for a value below ten. -/
def digitChar (d : Nat) : Char := Char.ofNat (48 + d % 10)

/-- Decimal rendering of a natural number, most significant digit first. -/
def renderNat (n : Nat) : List Char :=
  if _h : n < 10 then [digitChar n]
  else renderNat (n / 10) ++ [digitChar (n % 10)]
  termination_by n
  decreasing_by exact Nat.div_lt_self (by omega) (by omega)

/-- Decimal rendering of an integer, as `encoding/json` emits Go ints. -/
def renderInt (i : Int) : List Char :=
  if i < 0 then '-' :: renderNat i.natAbs else renderNat i.toNat

/-- JSON escaping of one character (quote, backslash and newline). -/
def escapeChar (c : Char) : List Char :=
  if c = quoteChar then [backslashChar, quoteChar]
  else if c = backslashChar then [backslashChar, backslashChar]
  else if c = '\n' then [backslashChar, 'n']
  else [c]

/-- JSON escaping of a character sequence. -/
def escapeStr : List Char → List Char
  | [] => []
  | c :: cs => escapeChar c ++ escapeStr cs

mutual

/-- Rendering of a JSON value to its wire form (no whitespace), the shape
`json.Marshal` produces. -/
def renderV : Json → List Char
  | .null => 'n' :: ['u', 'l', 'l']
  | .bool true => 't' :: ['r', 'u', 'e']
  | .bool false => 'f' :: ['a', 'l', 's', 'e']
  | .num i => renderInt i
  | .str s => quoteChar :: (escapeStr s.data ++ [quoteChar])
  | .arr es => '[' :: (renderElems es ++ [']'])
  | .obj fs => lcurly :: (renderFields fs ++ [rcurly])

/-- Rendering of array elements, comma separated. -/
def renderElems : JsonList → List Char
  | .nil => []
  | .cons h .nil => renderV h
  | .cons h (.cons h' tl) => renderV h ++ (',' :: renderElems (.cons h' tl))

/-- Rendering of object fields, comma separated, keys quoted. -/
def renderFields : JsonObj → List Char
  | .nil => []
  | .cons k v .nil =>
      quoteChar :: (escapeStr k.data ++ [quoteChar] ++ (':' :: renderV v))
  | .cons k v (.cons k' v' tl) =>
      quoteChar :: (escapeStr k.data ++ [quoteChar] ++ (':' :: renderV v)) ++
        (',' :: renderFields (.cons k' v' tl))

end

/-- The rendered form of a JSON value as a string. -/
def renderJson (j : Json) : String := ⟨renderV j⟩

/- ### The JSON decoder (embedding of `json.Unmarshal` on the wire form) -/

/-- Decision whether a character is a decimal digit. -/
def isDigitCh (c : Char) : Bool := decide (48 ≤ c.toNat) && decide (c.toNat ≤ 57)

/-- Numeric value of a digit character. -/
def digitVal (c : Char) : Nat := c.toNat - 48

/-- Whether a character sequence begins with a decimal digit. -/
def headIsDigit : List Char → Bool
  | [] => false
  | c :: _ => isDigitCh c

/-- Greedy decimal-digit consumption with an accumulator. -/
def readDigits (acc : Nat) : List Char → Nat × List Char
  | [] => (acc, [])
  | c :: cs =>
      if isDigitCh c then readDigits (acc * 10 + digitVal c) cs else (acc, c :: cs)

/-- Consume the remainder of a JSON string literal after the opening quote,
unescaping, up to and including the closing quote. -/
def readStringBody : List Char → Option (List Char × List Char)
  | [] => none
  | c :: cs =>
      if c = quoteChar then some ([], cs)
      else if c = backslashChar then
        match cs with
        | [] => none
        | d :: ds =>
            let dec : Option Char :=
              if d = quoteChar then some quoteChar
              else if d = backslashChar then some backslashChar
              else if d = 'n' then some '\n' else none
            match dec with
            | none => none
            | some ch =>
                match readStringBody ds with
                | none => none
                | some (s, r) => some (ch :: s, r)
      else
        match readStringBody cs with
        | none => none
        | some (s, r) => some (c :: s, r)

/-- One fuel layer of the JSON decoder: the triple of the value decoder,
the element-list decoder and the field-list decoder.  Structural recursion
on the fuel keeps every layer definitionally reducible. -/
def parseStep : Nat →
    (List Char → Option (Json × List Char)) ×
      (List Char → Option (JsonList × List Char)) ×
      (List Char → Option (JsonObj × List Char))
  | 0 => (fun _ => none, fun _ => none, fun _ => none)
  | fuel + 1 =>
      let pv := (parseStep fuel).1
      let pe := (parseStep fuel).2.1
      let pf := (parseStep fuel).2.2
      (fun input =>
        match input with
        | [] => none
        | c :: cs =>
          if c = 'n' then
            match cs with
            | 'u' :: 'l' :: 'l' :: r => some (.null, r)
            | _ => none
          else if c = 't' then
            match cs with
            | 'r' :: 'u' :: 'e' :: r => some (.bool true, r)
            | _ => none
          else if c = 'f' then
            match cs with
            | 'a' :: 'l' :: 's' :: 'e' :: r => some (.bool false, r)
            | _ => none
          else if c = quoteChar then
            match readStringBody cs with
            | none => none
            | some (s, r) => some (.str ⟨s⟩, r)
          else if c = '-' then
            match cs with
            | [] => none
            | d :: _ =>
                if isDigitCh d then
                  let (n, r) := readDigits 0 cs
                  some (.num (-(n : Int)), r)
                else none
          else if isDigitCh c then
            let (n, r) := readDigits 0 (c :: cs)
            some (.num (n : Int), r)
          else if c = '[' then
            match cs with
            | ']' :: r => some (.arr .nil, r)
            | _ =>
                match pe cs with
                | none => none
                | some (es, r) => some (.arr es, r)
          else if c = lcurly then
            match cs with
            | d :: r =>
                if d = rcurly then some (.obj .nil, r)
                else
                  match pf (d :: r) with
                  | none => none
                  | some (fs, r') => some (.obj fs, r')
            | [] => none
          else none,
      fun input =>
        match pv input with
        | none => none
        | some (j, rest) =>
            match rest with
            | ',' :: rs =>
                match pe rs with
                | none => none
                | some (tl, r) => some (.cons j tl, r)
            | ']' :: rs => some (.cons j .nil, rs)
            | _ => none,
      fun input =>
        match input with
        | c :: cs =>
            if c = quoteChar then
              match readStringBody cs with
              | none => none
              | some (k, r) =>
                  match r with
                  | ':' :: r' =>
                      match pv r' with
                      | none => none
                      | some (v, rest) =>
                          match rest with
                          | ',' :: rs =>
                              match pf rs with
                              | none => none
                              | some (tl, r'') => some (.cons ⟨k⟩ v tl, r'')
                          | d :: rs =>
                              if d = rcurly then some (.cons ⟨k⟩ v .nil, rs)
                              else none
                          | _ => none
                  | _ => none
            else none
        | [] => none)

/-- Fuel-indexed decoder of one JSON value from the head of the input,
returning the value and the unconsumed suffix. -/
def parseVal (fuel : Nat) : List Char → Option (Json × List Char) :=
  (parseStep fuel).1

/-- Fuel-indexed decoder of a nonempty comma-separated element list, up to
and including the closing square bracket. -/
def parseElems (fuel : Nat) : List Char → Option (JsonList × List Char) :=
  (parseStep fuel).2.1

/-- Fuel-indexed decoder of a nonempty comma-separated field list, up to
and including the closing curly bracket. -/
def parseFields (fuel : Nat) : List Char → Option (JsonObj × List Char) :=
  (parseStep fuel).2.2

/-- Decode a full character sequence as one JSON value (embedding of
`json.Unmarshal`: the whole body must be consumed). -/
def parseJsonL (input : List Char) : Option Json :=
  match parseVal (input.length + 1) input with
  | some (j, []) => some j
  | _ => none

/-- Decode a string as one JSON value. -/
def parseJson (s : String) : Option Json := parseJsonL s.data

mutual

/-- Fuel sufficient for `parseVal` to decode the rendered form of a value. -/
def jfuelV : Json → Nat
  | .null => 1
  | .bool _ => 1
  | .num _ => 1
  | .str _ => 1
  | .arr .nil => 1
  | .arr (.cons h tl) => 1 + jfuelElems (.cons h tl)
  | .obj .nil => 1
  | .obj (.cons k v tl) => 1 + jfuelFields (.cons k v tl)

/-- Fuel sufficient for `parseElems` on a rendered element list. -/
def jfuelElems : JsonList → Nat
  | .nil => 0
  | .cons h tl => 1 + jfuelV h + jfuelElems tl

/-- Fuel sufficient for `parseFields` on a rendered field list. -/
def jfuelFields : JsonObj → Nat
  | .nil => 0
  | .cons _ v tl => 1 + jfuelV v + jfuelFields tl

end

/- ### The magic sentinel and its stripper -/

/-- The magic sentinel line the server prepends to JSON bodies: the four
bytes close-paren, close-bracket, close-curly, apostrophe, then a newline. -/
def magicLine : List Char := [')', ']', rcurly, apos, '\n']

/-- Modelled from the spec: `RemoveMagicPrefixLine` is called by
`Requester.Do` (src/request.go line 141) but its defining file is not under
`src/`.  Spec section 4.4 and the glossary describe it: remove the fixed
magic sentinel sequence when the body begins with it; stripping is a no-op
when the sentinel is absent (including bodies shorter than the sentinel). -/
def removeMagicLine (body : List Char) : List Char :=
  if magicLine.isPrefixOf body then body.drop magicLine.length else body

/- ### URLs and the base-URL resolver -/

/-- The parsed base URL (the fields of Go `url.URL` the core reads). -/
structure GoURL where
  scheme : String
  host : String
  path : String
  deriving DecidableEq

/-- Recomposition of a parsed URL, as Go `url.URL.String()` yields it for
scheme/host/path-only URLs. -/
def GoURL.render (u : GoURL) : String := u.scheme ++ "://" ++ u.host ++ u.path

/-- Split a character sequence at the first colon-slash-slash separator,
returning the part before and the part after. -/
def splitSchemeSep : List Char → Option (List Char × List Char)
  | [] => none
  | c :: cs =>
      if c = ':' ∧ cs.take 2 = ['/', '/'] then some ([], cs.drop 2)
      else
        match splitSchemeSep cs with
        | none => none
        | some (a, b) => some (c :: a, b)

/-- Modelled from the spec: the absolute-URL validity test behind the
Base-URL Resolver (`SetBaseURL`, called from `NewClient` in
`src/unnamed/part_003`, is not defined under `src/`).  Spec section 4.1:
the input must parse as a valid absolute URL — a nonempty scheme, the
separator, and a nonempty host. -/
def parseAbsURL (s : String) : Option GoURL :=
  match splitSchemeSep s.data with
  | none => none
  | some (scheme, rest) =>
      if scheme = [] then none
      else
        let host := rest.takeWhile (· ≠ '/')
        let path := rest.dropWhile (· ≠ '/')
        if host = [] then none
        else some ⟨⟨scheme⟩, ⟨host⟩, ⟨path⟩⟩

/-- Modelled from the spec: `SetBaseURL`, the Base-URL Resolver (spec
section 4.1), whose defining file is not under `src/`.  It validates the
string as an absolute URL and appends a trailing path separator when one is
missing; unparsable input yields a descriptive error, and no network access
occurs (the function is pure). -/
def setBaseURL (s : String) : Except String String :=
  match parseAbsURL s with
  | none => .error ("invalid gerrit base URL: " ++ s)
  | some _ => .ok (if s.data.getLast? = some '/' then s else s ++ "/")

/- ### The requester and outgoing requests -/

/-- Embedding of the `Requester` struct (src/request.go lines 32-41 and
src/unnamed/part_007 lines 79-88): base URL plus authentication state.
The `client` field (the HTTP transport handle) is external state and is
represented by the response oracle passed to `call`. -/
structure Requester where
  baseURL : GoURL
  username : String
  password : String
  authType : String
  deriving DecidableEq

/-- Embedding of the outgoing `http.Request` fields the core writes:
method, absolute URL, the Content-Type and Accept headers, cookies added
via `AddCookie`, basic credentials set via `SetBasicAuth`, and the body. -/
structure GoRequest where
  method : String
  url : String
  contentType : Option String
  accept : Option String
  cookies : List (String × String)
  basicAuth : Option (String × String)
  body : Option String
  deriving DecidableEq

/-- The payload (`opt interface{}`) of a call: Go `nil` is `Option.none`,
a raw Go string is `GoOpt.str`, and any other marshalable value is its
JSON value `GoOpt.json`. -/
inductive GoOpt where
  | str (s : String)
  | json (j : Json)
  deriving DecidableEq

/-- Query-parameter rendering of one scalar option value; `none` marks a
zero value that an omit-empty tag drops. -/
def queryScalar : Json → Option String
  | .str s => if s = "" then none else some s
  | .num n => if n = 0 then none else some ⟨renderInt n⟩
  | .bool b => if b then some "true" else none
  | _ => none

/-- Query-string fragments of an options object, one `key=value` per
non-zero scalar field. -/
def queryPairs : JsonObj → List String
  | .nil => []
  | .cons k v tl =>
      match queryScalar v with
      | none => queryPairs tl
      | some s => (k ++ "=" ++ s) :: queryPairs tl

/-- Modelled from the spec: `addOptions` is called by `Requester.NewRequest`
(src/request.go line 61) but its defining file is not under `src/`.  Spec
section 2 (Option Encoder): for GET requests a structured options value is
converted into URL query parameters, each field under its declared
query-parameter name with zero values omitted; a non-struct payload is a
failure; a nil payload leaves the URL untouched. -/
def addOptions (url : String) (opt : Option GoOpt) : Except String String :=
  match opt with
  | none => .ok url
  | some (.str _) => .error "query: Values() expects struct input"
  | some (.json (.obj fs)) =>
      let ps := queryPairs fs
      .ok (if ps = [] then url else url ++ ("?" ++ String.intercalate "&" ps))
  | some (.json _) => .error "query: Values() expects struct input"

/-- The query-string suffix `addOptions` appends to a URL: empty for a nil
or empty-options payload, otherwise a question mark and the ampersand-join
of the pairs. -/
def querySuffix (opt : Option GoOpt) : String :=
  match opt with
  | some (.json (.obj fs)) =>
      let ps := queryPairs fs
      if ps = [] then "" else "?" ++ String.intercalate "&" ps
  | _ => ""

/-- Whether the requester has authentication configured: the Go test
`len(r.authType) != 0 && len(r.username) != 0 && len(r.password) != 0`
(src/request.go lines 44-48, src/unnamed/part_007 lines 91-95). -/
def Requester.hasAuth (r : Requester) : Bool :=
  r.authType.length != 0 && r.username.length != 0 && r.password.length != 0

/-- The Content-Type value the code attaches to raw string bodies
(src/request.go line 80): literally `plain/text`, not `text/plain`. -/
def plainTextCT : String := "plain/text;charset=UTF-8"

/-- Body and Content-Type attachment for POST/PUT payloads
(src/request.go lines 76-91, identical in src/unnamed/part_007 lines
126-141): a raw string is sent verbatim with the `plain/text` header, any
other payload is JSON-marshalled with an `application/json` header. -/
def attachBody (req : GoRequest) (method : String) (opt : Option GoOpt) :
    GoRequest :=
  match opt with
  | none => req
  | some o =>
      if method = "POST" || method = "PUT" then
        match o with
        | .str s => { req with body := some s, contentType := some plainTextCT }
        | .json j =>
            { req with body := some (renderJson j),
                       contentType := some "application/json" }
      else req

/-- Authentication application (src/request.go lines 94-103 and
src/unnamed/part_007 lines 144-167): `cookie` adds a session cookie named
by the username, `digest` applies nothing (the `DigestAuth`
`ApplyAuthentication` body is an empty TODO, src/unnamed/part_007 lines
75-77), and every other configured tag sets basic credentials. -/
def applyAuth (r : Requester) (req : GoRequest) : GoRequest :=
  if r.hasAuth then
    if r.authType = "cookie" then
      { req with cookies := req.cookies ++ [(r.username, r.password)] }
    else if r.authType = "digest" then
      req
    else
      { req with basicAuth := some (r.username, r.password) }
  else req

/-- Embedding of `Requester.NewRequest` as written in `src/request.go`
lines 43-110: trim one leading slash from the endpoint, place the `a/`
segment between the rendered base URL and the endpoint when authentication
is configured, encode GET options as query parameters, attach the body and
Content-Type for POST/PUT, apply the authentication strategy, and set the
Accept header. -/
def Requester.newRequest (r : Requester) (method endpoint : String)
    (opt : Option GoOpt) : Except String GoRequest := do
  let urlStr0 := goTrimPre endpoint "/"
  let urlStr1 := if r.hasAuth then "a/" ++ urlStr0 else urlStr0
  let urlStr2 := r.baseURL.render ++ urlStr1
  let urlStr3 ← if method = "GET" then addOptions urlStr2 opt else pure urlStr2
  let req : GoRequest :=
    { method := method, url := urlStr3, contentType := none, accept := none,
      cookies := [], basicAuth := none, body := none }
  let req := attachBody req method opt
  let req := applyAuth r req
  pure { req with accept := some "application/json" }

/-- Embedding of `Requester.NewRequest` as written in
`src/unnamed/part_007` lines 90-174.  It differs from the `src/request.go`
version only in the authenticated URL (lines 100-108): the base URL is
re-parsed and rebuilt as scheme, host, the `/a` segment, then the base
path, so the authenticated segment lands immediately after the host even
when the base URL carries a path prefix. -/
def Requester.newRequestP7 (r : Requester) (method endpoint : String)
    (opt : Option GoOpt) : Except String GoRequest := do
  let urlStr0 := goTrimPre endpoint "/"
  let base :=
    if r.hasAuth then
      r.baseURL.scheme ++ "://" ++ r.baseURL.host ++ "/a" ++ r.baseURL.path
    else r.baseURL.render
  let urlStr2 := base ++ urlStr0
  let urlStr3 ← if method = "GET" then addOptions urlStr2 opt else pure urlStr2
  let req : GoRequest :=
    { method := method, url := urlStr3, contentType := none, accept := none,
      cookies := [], basicAuth := none, body := none }
  let req := attachBody req method opt
  let req := applyAuth r req
  pure { req with accept := some "application/json" }

/- ### Authentication configuration -/

/-- The scheme tags `SetAuth` accepts (src/unnamed/part_007 line 258,
src/unnamed/part_003 line 59). -/
def allowedAuthTypes : List String := ["basic", "digest", "cookie"]

/-- Embedding of `Requester.SetAuth` (src/unnamed/part_007 lines 249-276;
`Gerrit.SetAuth` in src/unnamed/part_003 lines 50-77 is the same logic on
the wrapped requester).  An empty tag, username or password, or a tag
outside the allowed set, hits `log.Fatal` — the process terminates at
configuration time and the requester fields are never assigned; this is
embedded as `Except.error` carrying the fatal message.  Otherwise the
scheme and both credentials are replaced together. -/
def Requester.setAuth (r : Requester) (authType username password : String) :
    Except String Requester :=
  if authType = "" || username = "" || password = "" then
    .error "authType, username, and password cannot be empty"
  else if !(allowedAuthTypes.contains authType) then
    .error "Unsupported authType"
  else
    .ok { r with authType := authType, username := username,
                 password := password }

/- ### Responses and the response decoder -/

/-- The fields of `http.Response` the core reads: status code and body. -/
structure GoResponse where
  statusCode : Nat
  body : List Char
  deriving DecidableEq

/-- The structured error for a failed HTTP status, carrying the status
code and the server-supplied message. -/
structure ErrorResponse where
  statusCode : Nat
  message : String
  deriving DecidableEq

/-- Modelled from the spec: `CheckResponse` is called by `Requester.Do`
(src/request.go line 118) but its defining file is not under `src/`.  Spec
section 4.4 step 2: any status outside the 2xx range produces a structured
error carrying the status code and a best-effort parse of the server's
error body as the message; a 2xx status is success. -/
def checkResponse (resp : GoResponse) : Option ErrorResponse :=
  if 200 ≤ resp.statusCode ∧ resp.statusCode ≤ 299 then none
  else some ⟨resp.statusCode, ⟨resp.body⟩⟩

/-- The caller-supplied destination (`v interface{}`) of `Do`: Go `nil`,
an `io.Writer` byte sink, a `*string`, or a pointer to a structured
value. -/
inductive Dest where
  | nothing
  | writer
  | strPtr
  | structured
  deriving DecidableEq

/-- What `Do` stored into the destination on success. -/
inductive Decoded where
  | nothing
  | sink (bytes : List Char)
  | text (s : String)
  | value (j : Json)
  deriving DecidableEq

/-- The errors `Do` and `Call` can surface: a request-construction error,
an HTTP-status error, or a body-decode error. -/
inductive DoError where
  | build (msg : String)
  | http (e : ErrorResponse)
  | decode
  deriving DecidableEq

/-- Embedding of `Requester.Do` as written in `src/request.go` lines
112-149, given the response the transport produced: check the status
(returning the response alongside the error on failure), then decode by
destination — nothing for `nil`, a verbatim byte copy for an `io.Writer`,
and otherwise read the full body, strip the magic sentinel and
JSON-decode (this version runs `json.Unmarshal` for a `*string`
destination too, so `strPtr` takes the structured path). -/
def doDecode (resp : GoResponse) (dest : Dest) :
    GoResponse × Except DoError Decoded :=
  match checkResponse resp with
  | some e => (resp, .error (.http e))
  | none =>
      match dest with
      | .nothing => (resp, .ok .nothing)
      | .writer => (resp, .ok (.sink resp.body))
      | _ =>
          match parseJsonL (removeMagicLine resp.body) with
          | some j => (resp, .ok (.value j))
          | none => (resp, .error .decode)

/-- The cutset of Go `strings.Trim(string(body), "\"\n")` in the string
destination path: the double quote and the newline. -/
def quoteNewlineCutset : List Char := [quoteChar, '\n']

/-- Embedding of `Requester.Do` as written in `src/unnamed/part_007` lines
176-229: same status handling; a `*string` destination reads the full
body, strips the magic sentinel when present, and trims surrounding quote
and newline characters; a structured destination in this version discards
exactly five bytes and then decodes one JSON value from the remaining
stream (trailing bytes permitted by `json.Decoder`). -/
def doDecodeP7 (resp : GoResponse) (dest : Dest) :
    GoResponse × Except DoError Decoded :=
  match checkResponse resp with
  | some e => (resp, .error (.http e))
  | none =>
      match dest with
      | .nothing => (resp, .ok .nothing)
      | .writer => (resp, .ok (.sink resp.body))
      | .strPtr =>
          (resp, .ok (.text
            (goTrim ⟨removeMagicLine resp.body⟩ quoteNewlineCutset)))
      | .structured =>
          if resp.body.length < 5 then (resp, .error .decode)
          else
            let rest := resp.body.drop 5
            match parseVal (rest.length + 1) rest with
            | some (j, _) => (resp, .ok (.value j))
            | none => (resp, .error .decode)

/-- Embedding of `Requester.Call` (src/request.go lines 151-163): build
the request, dispatch it (the `server` oracle stands for the transport
exchange) and decode the response; a construction failure yields no
response, any later failure still hands the response back. -/
def Requester.call (r : Requester) (server : GoRequest → GoResponse)
    (method endpoint : String) (opt : Option GoOpt) (dest : Dest) :
    Option GoResponse × Except DoError Decoded :=
  match r.newRequest method endpoint opt with
  | .error msg => (none, .error (.build msg))
  | .ok req =>
      let (resp, res) := doDecode (server req) dest
      (some resp, res)

/- ### Domain resource handles and their creation calls -/

/-- The identity-bearing field of `ChangeInfo` (src/changes.go): the
canonical change ID the server assigns.  The remaining fields of the
entity are passive JSON-schema data (spec section 1) and are not part of
any claim. -/
structure ChangeInfo where
  id : String
  deriving DecidableEq

/-- The identity-bearing field of `AccountInfo` (src/accounts.go): the
numeric account ID. -/
structure AccountInfo where
  accountID : Int
  deriving DecidableEq

/-- The identity-bearing field of `GroupInfo` (src/unnamed/part_009). -/
structure GroupInfo where
  id : String
  deriving DecidableEq

/-- The `Change` handle (src/changes.go lines 639-643): cached
representation plus the identifier used to build endpoint paths.  The
`gerrit` back-reference is the client and is external to the handle
state. -/
structure ChangeHandle where
  raw : ChangeInfo
  base : String
  deriving DecidableEq

/-- The `Account` handle (src/accounts.go lines 17-21). -/
structure AccountHandle where
  raw : AccountInfo
  base : String
  deriving DecidableEq

/-- The `Group` handle (src/unnamed/part_009 lines 16-20). -/
structure GroupHandle where
  raw : GroupInfo
  base : String
  deriving DecidableEq

/-- Embedding of `Change.Poll` (src/changes.go lines 697-700): refresh the
cached representation from a GET on `changes/{base}`; `pollResp` is the
decoded outcome of that exchange. -/
def ChangeHandle.poll (c : ChangeHandle) (pollResp : Except String ChangeInfo) :
    Except String ChangeHandle :=
  match pollResp with
  | .error e => .error e
  | .ok raw => .ok { c with raw := raw }

/-- Embedding of `Change.Create` (src/changes.go lines 702-716): POST the
input to `changes/`, reassign the handle identifier to the canonical ID
the server returned, then poll; `createResp` is the decoded outcome of the
POST and `pollResp` maps the identifier polled to that exchange's
outcome. -/
def ChangeHandle.create (c : ChangeHandle)
    (createResp : Except String ChangeInfo)
    (pollResp : String → Except String ChangeInfo) :
    Except String ChangeHandle :=
  match createResp with
  | .error e => .error e
  | .ok v =>
      let c1 : ChangeHandle := { c with base := v.id }
      match pollResp c1.base with
      | .error e => .error e
      | .ok raw => .ok { c1 with raw := raw }

/-- Embedding of `Account.Poll` (src/accounts.go lines 360-363). -/
def AccountHandle.poll (a : AccountHandle)
    (pollResp : Except String AccountInfo) : Except String AccountHandle :=
  match pollResp with
  | .error e => .error e
  | .ok raw => .ok { a with raw := raw }

/-- Embedding of `Account.Create` (src/accounts.go lines 369-385): PUT the
input to `accounts/{base}`, poll at the still-provisional identifier, then
reassign the identifier to the stringified numeric account ID the creation
response carried (`strconv.Itoa(v.AccountID)`). -/
def AccountHandle.create (a : AccountHandle)
    (createResp : Except String AccountInfo)
    (pollResp : String → Except String AccountInfo) :
    Except String AccountHandle :=
  match createResp with
  | .error e => .error e
  | .ok v =>
      match pollResp a.base with
      | .error e => .error e
      | .ok raw => .ok { a with raw := raw, base := toString v.accountID }

/-- Embedding of `Group.Poll` (src/unnamed/part_009 lines 139-142). -/
def GroupHandle.poll (g : GroupHandle) (pollResp : Except String GroupInfo) :
    Except String GroupHandle :=
  match pollResp with
  | .error e => .error e
  | .ok raw => .ok { g with raw := raw }

/-- Embedding of `Group.Create` (src/unnamed/part_009 lines 144-160): PUT
to `groups/{base}`, poll at the provisional identifier, then reassign the
identifier to the ID the creation response carried. -/
def GroupHandle.create (g : GroupHandle)
    (createResp : Except String GroupInfo)
    (pollResp : String → Except String GroupInfo) :
    Except String GroupHandle :=
  match createResp with
  | .error e => .error e
  | .ok v =>
      match pollResp g.base with
      | .error e => .error e
      | .ok raw => .ok { g with raw := raw, base := v.id }

/- ### The package-level transport configuration -/

/-- The TLS client configuration field the transport sets. -/
structure TLSConfig where
  insecureSkipVerify : Bool
  deriving DecidableEq

/-- The `http.Transport` fields assigned at package load. -/
structure TransportConfig where
  disableCompression : Bool
  maxIdleConns : Nat
  idleConnTimeoutSec : Nat
  tlsHandshakeTimeoutSec : Nat
  tlsClientConfig : TLSConfig
  deriving DecidableEq

/-- The package-level HTTP client built over the transport. -/
structure HTTPClientConfig where
  transport : TransportConfig
  timeoutSec : Nat
  deriving DecidableEq

/-- Embedding of the package-level `transport` variable (src/request.go
lines 17-24): compression disabled, ten idle connections, thirty-second
idle timeout, ten-second TLS handshake timeout, and TLS certificate
verification disabled (`InsecureSkipVerify: true`). -/
def transportVar : TransportConfig :=
  { disableCompression := true, maxIdleConns := 10, idleConnTimeoutSec := 30,
    tlsHandshakeTimeoutSec := 10,
    tlsClientConfig := { insecureSkipVerify := true } }

/-- Embedding of the package-level `defaultClient` variable
(src/request.go lines 26-30). -/
def defaultClientVar : HTTPClientConfig :=
  { transport := transportVar, timeoutSec := 15 }

/- ### Occurrence counting for the authenticated-path segment -/

/-- Number of occurrences of the two-character sequence `a` followed by a
slash inside a character sequence. -/
def countASlash : List Char → Nat
  | [] => 0
  | [_] => 0
  | a :: b :: rest =>
      (if a = 'a' ∧ b = '/' then 1 else 0) + countASlash (b :: rest)

/-- Whether the last character of a sequence is the given one. -/
def lastIs (l : List Char) (c : Char) : Bool :=
  match l.getLast? with
  | none => false
  | some d => d = c

/-- Whether the first character of a sequence is the given one. -/
def headIs (l : List Char) (c : Char) : Bool :=
  match l with
  | [] => false
  | d :: _ => d = c

/-- Number of trailing path separators of a string. -/
def trailingSlashes (s : String) : Nat :=
  (s.data.reverse.takeWhile (· = '/')).length

/- ### Concrete fixtures used by witnesses and counterexamples -/

/-- A base URL with root path, as `setBaseURL` normalizes a plain host. -/
def urlEx : GoURL := { scheme := "http", host := "example.com", path := "/" }

/-- A base URL carrying a path segment before the normalized separator. -/
def urlPre : GoURL := { scheme := "http", host := "h", path := "/pre/" }

/-- A requester configured for the digest scheme. -/
def rDigest : Requester :=
  { baseURL := urlEx, username := "admin", password := "secret",
    authType := "digest" }

/-- A requester configured for the basic scheme. -/
def rBasic : Requester :=
  { baseURL := urlEx, username := "admin", password := "secret",
    authType := "basic" }

/-- A basic-scheme requester whose base URL has a path segment. -/
def rBasicPre : Requester :=
  { baseURL := urlPre, username := "admin", password := "secret",
    authType := "basic" }

/-- A transport oracle that answers every request with a 404. -/
def server404 : GoRequest → GoResponse :=
  fun _ => { statusCode := 404, body := "Not Found".data }

/-- A 200 response whose body is the sentinel followed by a quoted line. -/
def respText : GoResponse :=
  { statusCode := 200, body := magicLine ++ (quoteChar :: "master".data) ++ [quoteChar, '\n'] }

/-- A 200 response whose body is the sentinel followed by a JSON array. -/
def respArr : GoResponse :=
  { statusCode := 200, body := magicLine ++ "[1]".data }

/-- Structured payload of the spec's POST scenario (`ChangeInput` with
project, branch and subject), used by the C2 witness. -/
def changeInputEx : Json :=
  .obj (.cons "project" (.str "demo")
    (.cons "branch" (.str "main")
      (.cons "subject" (.str "test") .nil)))

end GoGerrit

namespace GoGerrit

/- ### Helper lemmas -/

/-- Stripping after the sentinel: on a body that is the sentinel followed
by a remainder, the stripper returns exactly the remainder. -/
theorem removeMagicLine_append (rest : List Char) :
    removeMagicLine (magicLine ++ rest) = rest := by
  have hpre : magicLine.isPrefixOf (magicLine ++ rest) = true := by
    rw [List.isPrefixOf_iff_prefix]
    exact List.prefix_append _ _
  simp [removeMagicLine, hpre]

/-- Stripping without the sentinel is a no-op. -/
theorem removeMagicLine_of_not {body : List Char}
    (h : ¬ magicLine <+: body) : removeMagicLine body = body := by
  have hpre : magicLine.isPrefixOf body = false := by
    rw [Bool.eq_false_iff, ne_eq, List.isPrefixOf_iff_prefix]
    exact h
  simp [removeMagicLine, hpre]

/- ### C10 -/

/-- C10: the package-level default transport disables TLS certificate
verification — `InsecureSkipVerify` is `true` in the `transport` variable
behind `defaultClient` (src/request.go line 23), so every request issued
through the default client accepts any server certificate; the spec never
mentions TLS verification. -/
theorem default_transport_skips_tls_verification :
    defaultClientVar.transport.tlsClientConfig.insecureSkipVerify = true := rfl

/- ### C7 -/

/-- C7: configuring authentication with an empty scheme tag, username or
secret, or with a tag outside basic/digest/cookie, is fatal at
configuration time — `SetAuth` hits `log.Fatal` before assigning anything,
so no updated requester is ever produced and the authentication state is
unmodified. -/
theorem setAuth_invalid_is_fatal (r : Requester) (t u p : String)
    (h : t = "" ∨ u = "" ∨ p = "" ∨ t ∉ allowedAuthTypes) :
    (∃ msg, r.setAuth t u p = .error msg) ∧
      ∀ r', r.setAuth t u p ≠ .ok r' := by
  unfold Requester.setAuth
  constructor
  · split
    · exact ⟨_, rfl⟩
    · split
      · exact ⟨_, rfl⟩
      · rename_i h1 h2
        exfalso
        rcases h with h | h | h | h <;> simp_all [allowedAuthTypes]
  · intro r'
    split
    · simp
    · split
      · simp
      · rename_i h1 h2
        exfalso
        rcases h with h | h | h | h <;> simp_all [allowedAuthTypes]

/-- Witness for C7: the unrecognized tag `token` is rejected and no
updated requester results. -/
theorem setAuth_invalid_is_fatal_witness :
    ("token" = "" ∨ "u" = "" ∨ "p" = "" ∨ "token" ∉ allowedAuthTypes) ∧
      ((∃ msg, rBasic.setAuth "token" "u" "p" = .error msg) ∧
        ∀ r', rBasic.setAuth "token" "u" "p" ≠ .ok r') :=
  ⟨by decide, setAuth_invalid_is_fatal rBasic "token" "u" "p" (by decide)⟩

/- ### C1 -/

/-- C1 (code bug witness): with the digest scheme fully configured,
request construction succeeds and the built request carries no
authentication credentials at all — no basic credentials and no cookie —
because `DigestAuth.ApplyAuthentication` is an empty TODO
(src/unnamed/part_007 lines 75-77) and the `digest` switch arm in
src/request.go lines 98-99 does nothing.  The claim requires digest
requests to carry digest credentials or fail construction; the code does
neither. -/
theorem digest_request_built_without_credentials :
    rDigest.hasAuth = true ∧
      rDigest.newRequest "GET" "projects/" none =
        .ok { method := "GET", url := "http://example.com/a/projects/",
              contentType := none, accept := some "application/json",
              cookies := [], basicAuth := none, body := none } := by
  constructor
  · rfl
  · rfl

/- ### C6 -/

/-- C6: whenever the HTTP exchange completes with a status outside the
2xx range, `Call` hands back a non-nil response together with a non-nil
error that carries exactly that status code (and the error body as
message). -/
theorem call_non2xx_returns_error_and_response (r : Requester)
    (server : GoRequest → GoResponse) (method endpoint : String)
    (opt : Option GoOpt) (dest : Dest) (req : GoRequest)
    (hreq : r.newRequest method endpoint opt = .ok req)
    (hstatus : ¬(200 ≤ (server req).statusCode ∧ (server req).statusCode ≤ 299)) :
    r.call server method endpoint opt dest =
      (some (server req),
        .error (.http ⟨(server req).statusCode, ⟨(server req).body⟩⟩)) := by
  simp only [Requester.call, hreq]
  simp only [doDecode, checkResponse, if_neg hstatus]

/-- Witness for C6: a server answering 404 makes `Call` return the
response and a 404-carrying error. -/
theorem call_non2xx_witness :
    rBasic.newRequest "GET" "changes/" none =
      .ok { method := "GET", url := "http://example.com/a/changes/",
            contentType := none, accept := some "application/json",
            cookies := [], basicAuth := some ("admin", "secret"),
            body := none } ∧
    rBasic.call server404 "GET" "changes/" none .structured =
      (some { statusCode := 404, body := "Not Found".data },
        .error (.http ⟨404, "Not Found"⟩)) := by
  constructor
  · rfl
  · have h := call_non2xx_returns_error_and_response rBasic server404
      "GET" "changes/" none .structured
      { method := "GET", url := "http://example.com/a/changes/",
        contentType := none, accept := some "application/json",
        cookies := [], basicAuth := some ("admin", "secret"), body := none }
      rfl (by decide)
    rw [h]
    rfl

/- ### C8 -/

theorem splitSchemeSep_append_slash :
    ∀ l a b, splitSchemeSep l = some (a, b) →
      splitSchemeSep (l ++ ['/']) = some (a, b ++ ['/']) := by
  intro l
  induction l with
  | nil => intro a b h; simp [splitSchemeSep] at h
  | cons c cs ih =>
      intro a b h
      by_cases hc : c = ':' ∧ cs.take 2 = ['/', '/']
      · have hlen : 2 ≤ cs.length := by
          have := congrArg List.length hc.2
          simp [List.length_take] at this
          omega
        simp only [splitSchemeSep, if_pos hc] at h
        obtain ⟨rfl, rfl⟩ := Prod.mk.injEq .. ▸ (Option.some.injEq .. ▸ h)
        show splitSchemeSep (c :: (cs ++ ['/'])) = _
        have hc' : c = ':' ∧ (cs ++ ['/']).take 2 = ['/', '/'] := by
          refine ⟨hc.1, ?_⟩
          rw [List.take_append_of_le_length hlen]
          exact hc.2
        simp only [splitSchemeSep, if_pos hc']
        rw [List.drop_append_of_le_length hlen]
      · simp only [splitSchemeSep, if_neg hc] at h
        rcases hcs : splitSchemeSep cs with _ | ⟨a0, b0⟩
        · rw [hcs] at h; simp at h
        · rw [hcs] at h
          simp only [Option.some.injEq, Prod.mk.injEq] at h
          obtain ⟨rfl, rfl⟩ := h
          have hc2 : ¬(c = ':' ∧ (cs ++ ['/']).take 2 = ['/', '/']) := by
            intro hcontra
            rcases cs with _ | ⟨x, t⟩
            · simp [splitSchemeSep] at hcs
            · rcases t with _ | ⟨y, t2⟩
              · simp [splitSchemeSep] at hcs
              · apply hc
                refine ⟨hcontra.1, ?_⟩
                have := hcontra.2
                simpa using this
          show splitSchemeSep (c :: (cs ++ ['/'])) = _
          simp only [splitSchemeSep, if_neg hc2]
          rw [ih a0 b0 hcs]

theorem parseAbsURL_append_slash {s : String} {u : GoURL}
    (h : parseAbsURL s = some u) : ∃ u', parseAbsURL (s ++ "/") = some u' := by
  unfold parseAbsURL at h ⊢
  rcases hs : splitSchemeSep s.data with _ | ⟨scheme, rest⟩
  · rw [hs] at h; simp at h
  · rw [hs] at h
    dsimp only at h
    have happ : splitSchemeSep ((s ++ "/").data) = some (scheme, rest ++ ['/']) := by
      rw [String.data_append]
      exact splitSchemeSep_append_slash s.data scheme rest hs
    rw [happ]
    dsimp only
    by_cases hsch : scheme = []
    · rw [if_pos hsch] at h; simp at h
    · rw [if_neg hsch] at h ⊢
      by_cases hhost : rest.takeWhile (· ≠ '/') = []
      · rw [if_pos hhost] at h; simp at h
      · rcases rest with _ | ⟨r0, rs⟩
        · simp at hhost
        · rw [List.takeWhile_cons] at hhost
          by_cases hr0 : r0 = '/'
          · rw [if_neg (by simp [hr0])] at hhost
            exact absurd rfl hhost
          · have hcons : List.takeWhile (fun c => decide (c ≠ '/')) ((r0 :: rs) ++ ['/']) =
                r0 :: List.takeWhile (fun c => decide (c ≠ '/')) (rs ++ ['/']) := by
              rw [List.cons_append, List.takeWhile_cons, if_pos (by simp [hr0])]
            rw [if_neg (by simp [hcons, hr0])]
            exact ⟨_, rfl⟩

/-- C8: the Base-URL Resolver appends exactly one trailing separator to
every valid absolute URL that lacks one, is idempotent on its own output,
and rejects malformed input (such as the empty string) with an error; it
is a pure function, so no network access occurs. -/
theorem setBaseURL_normalizes :
    (∀ s u, parseAbsURL s = some u → s.data.getLast? ≠ some '/' →
        setBaseURL s = .ok (s ++ "/") ∧ trailingSlashes (s ++ "/") = 1) ∧
    (∀ s t, setBaseURL s = .ok t → setBaseURL t = .ok t) ∧
    (∀ s, parseAbsURL s = none → ∃ msg, setBaseURL s = .error msg) := by
  refine ⟨?_, ?_, ?_⟩
  · intro s u hparse hlast
    unfold setBaseURL
    rw [hparse]
    dsimp only
    rw [if_neg hlast]
    refine ⟨rfl, ?_⟩
    unfold trailingSlashes
    rw [String.data_append]
    show (List.reverse (s.data ++ ['/']) |>.takeWhile (· = '/')).length = 1
    rw [List.reverse_append]
    simp only [List.reverse_cons, List.reverse_nil, List.nil_append, List.singleton_append,
      List.takeWhile_cons]
    rw [if_pos (by simp)]
    have htw : List.takeWhile (fun c => decide (c = '/')) s.data.reverse = [] := by
      rcases hr : s.data.reverse with _ | ⟨h0, t⟩
      · simp
      · have : s.data.getLast? = some h0 := by
          rw [← List.head?_reverse, hr]; rfl
        have hne : h0 ≠ '/' := by
          intro hcontra; exact hlast (hcontra ▸ this)
        rw [List.takeWhile_cons, if_neg (by simp [hne])]
    rw [htw]
    rfl
  · intro s t h
    unfold setBaseURL at h
    rcases hp : parseAbsURL s with _ | u
    · rw [hp] at h; simp at h
    · rw [hp] at h
      dsimp only at h
      simp only [Except.ok.injEq] at h
      by_cases hlast : s.data.getLast? = some '/'
      · rw [if_pos hlast] at h
        subst h
        unfold setBaseURL
        rw [hp]
        dsimp only
        rw [if_pos hlast]
      · rw [if_neg hlast] at h
        subst h
        obtain ⟨u', hu'⟩ := parseAbsURL_append_slash hp
        unfold setBaseURL
        rw [hu']
        dsimp only
        rw [if_pos (by rw [String.data_append]; exact List.getLast?_concat _)]
  · intro s h
    unfold setBaseURL
    rw [h]
    exact ⟨_, rfl⟩

/-- Witness for C8: resolving `http://example.com` appends one separator
and the result ends in exactly one. -/
theorem setBaseURL_normalizes_witness :
    (parseAbsURL "http://example.com" = some ⟨"http", "example.com", ""⟩ ∧
      ("http://example.com").data.getLast? ≠ some '/') ∧
    setBaseURL "http://example.com" = .ok "http://example.com/" ∧
    trailingSlashes "http://example.com/" = 1 :=
  ⟨⟨by decide, by decide⟩,
    setBaseURL_normalizes.1 "http://example.com" ⟨"http", "example.com", ""⟩
      (by decide) (by decide)⟩

/- ### C5 -/

/-- C5: on a successful (2xx) response decoded into a string-pointer
destination, the part_007 decoder reads the full body, strips the magic
sentinel when the body begins with it, and stores the result with
surrounding quote and newline characters trimmed away; without the
sentinel the strip is a no-op and only the trim applies. -/
theorem do_strPtr_trims (resp : GoResponse)
    (h2xx : 200 ≤ resp.statusCode ∧ resp.statusCode ≤ 299) :
    (∀ rest, resp.body = magicLine ++ rest →
        doDecodeP7 resp .strPtr =
          (resp, .ok (.text (goTrim ⟨rest⟩ quoteNewlineCutset)))) ∧
    (¬ magicLine <+: resp.body →
        doDecodeP7 resp .strPtr =
          (resp, .ok (.text (goTrim ⟨resp.body⟩ quoteNewlineCutset)))) := by
  unfold doDecodeP7 checkResponse
  rw [if_pos h2xx]
  constructor
  · intro rest hbody
    rw [hbody, removeMagicLine_append]
  · intro hnot
    rw [removeMagicLine_of_not hnot]

/-- Witness for C5: a 200 response carrying the sentinel and the quoted
line `master` decodes to the bare string `master`. -/
theorem do_strPtr_trims_witness :
    (200 ≤ respText.statusCode ∧ respText.statusCode ≤ 299) ∧
      doDecodeP7 respText .strPtr = (respText, .ok (.text "master")) := by
  refine ⟨by decide, ?_⟩
  have h := (do_strPtr_trims respText (by decide)).1
    ((quoteChar :: "master".data) ++ [quoteChar, '\n']) (by decide)
  rw [h]
  rfl

/- ### C9 -/

/-- C9: a successful creation call rebinds the handle identifier to the
authoritative ID the server returned — the canonical change ID for
`Change.Create`, the stringified numeric account ID for `Account.Create`,
the group ID for `Group.Create` — and the refresh operations (`Poll`),
the only other handle-writing operations in the repository, never touch
the identifier. -/
theorem create_rebinds_identifier_only :
    (∀ (c : ChangeHandle) createResp pollResp ch,
        ChangeHandle.create c createResp pollResp = .ok ch →
          ∃ v, createResp = .ok v ∧ ch.base = v.id) ∧
    (∀ (a : AccountHandle) createResp pollResp ah,
        AccountHandle.create a createResp pollResp = .ok ah →
          ∃ v, createResp = .ok v ∧ ah.base = toString v.accountID) ∧
    (∀ (g : GroupHandle) createResp pollResp gh,
        GroupHandle.create g createResp pollResp = .ok gh →
          ∃ v, createResp = .ok v ∧ gh.base = v.id) ∧
    (∀ (c : ChangeHandle) pollResp ch,
        ChangeHandle.poll c pollResp = .ok ch → ch.base = c.base) ∧
    (∀ (a : AccountHandle) pollResp ah,
        AccountHandle.poll a pollResp = .ok ah → ah.base = a.base) ∧
    (∀ (g : GroupHandle) pollResp gh,
        GroupHandle.poll g pollResp = .ok gh → gh.base = g.base) := by
  refine ⟨?_, ?_, ?_, ?_, ?_, ?_⟩
  · intro c createResp pollResp ch h
    unfold ChangeHandle.create at h
    rcases createResp with e | v
    · simp at h
    · refine ⟨v, rfl, ?_⟩
      rcases hp : pollResp v.id with e | raw <;> simp [hp] at h <;>
        simp [← h]
  · intro a createResp pollResp ah h
    unfold AccountHandle.create at h
    rcases createResp with e | v
    · simp at h
    · refine ⟨v, rfl, ?_⟩
      rcases hp : pollResp a.base with e | raw <;> simp [hp] at h <;>
        simp [← h]
  · intro g createResp pollResp gh h
    unfold GroupHandle.create at h
    rcases createResp with e | v
    · simp at h
    · refine ⟨v, rfl, ?_⟩
      rcases hp : pollResp g.base with e | raw <;> simp [hp] at h <;>
        simp [← h]
  · intro c pollResp ch h
    unfold ChangeHandle.poll at h
    rcases pollResp with e | raw <;> simp at h <;> simp [← h]
  · intro a pollResp ah h
    unfold AccountHandle.poll at h
    rcases pollResp with e | raw <;> simp at h <;> simp [← h]
  · intro g pollResp gh h
    unfold GroupHandle.poll at h
    rcases pollResp with e | raw <;> simp at h <;> simp [← h]

/-- Witness for C9: a concrete change creation whose server returns the
canonical ID `demo~42` rebinds the handle to that ID. -/
theorem create_rebinds_identifier_only_witness :
    ChangeHandle.create { raw := ⟨""⟩, base := "" } (.ok ⟨"demo~42"⟩)
        (fun _ => .ok ⟨"demo~42"⟩) =
      .ok { raw := ⟨"demo~42"⟩, base := "demo~42" } ∧
    ∃ v, (Except.ok ⟨"demo~42"⟩ : Except String ChangeInfo) = .ok v ∧
      ({ raw := ⟨"demo~42"⟩, base := "demo~42" } : ChangeHandle).base = v.id := by
  constructor
  · rfl
  · exact create_rebinds_identifier_only.1 { raw := ⟨""⟩, base := "" }
      (.ok ⟨"demo~42"⟩) (fun _ => .ok ⟨"demo~42"⟩)
      { raw := ⟨"demo~42"⟩, base := "demo~42" } rfl

end GoGerrit

namespace GoGerrit

theorem escapeChar_quote : escapeChar quoteChar = [backslashChar, quoteChar] := by
  decide

theorem escapeChar_backslash :
    escapeChar backslashChar = [backslashChar, backslashChar] := by
  decide

theorem escapeChar_newline : escapeChar '\n' = [backslashChar, 'n'] := by
  decide

theorem escapeChar_plain {c : Char} (h1 : c ≠ quoteChar) (h2 : c ≠ backslashChar)
    (h3 : c ≠ '\n') : escapeChar c = [c] := by
  simp [escapeChar, h1, h2, h3]

theorem readStringBody_escape :
    ∀ s rest, readStringBody (escapeStr s ++ (quoteChar :: rest)) = some (s, rest) := by
  intro s
  induction s with
  | nil =>
      intro rest
      show readStringBody (quoteChar :: rest) = _
      unfold readStringBody
      simp
  | cons c cs ih =>
      intro rest
      show readStringBody (escapeChar c ++ escapeStr cs ++ (quoteChar :: rest)) = _
      by_cases h1 : c = quoteChar
      · subst h1
        rw [escapeChar_quote]
        show readStringBody (backslashChar :: quoteChar :: (escapeStr cs ++ quoteChar :: rest)) = _
        unfold readStringBody
        simp [(by decide : ¬backslashChar = quoteChar), ih rest]
      · by_cases h2 : c = backslashChar
        · subst h2
          rw [escapeChar_backslash]
          show readStringBody
              (backslashChar :: backslashChar :: (escapeStr cs ++ quoteChar :: rest)) = _
          unfold readStringBody
          simp [(by decide : ¬backslashChar = quoteChar), ih rest]
        · by_cases h3 : c = '\n'
          · subst h3
            rw [escapeChar_newline]
            show readStringBody
                (backslashChar :: 'n' :: (escapeStr cs ++ quoteChar :: rest)) = _
            unfold readStringBody
            simp [(by decide : ¬backslashChar = quoteChar),
              (by decide : ¬ 'n' = quoteChar), (by decide : ¬ 'n' = backslashChar),
              ih rest]
          · rw [escapeChar_plain h1 h2 h3]
            show readStringBody (c :: (escapeStr cs ++ quoteChar :: rest)) = _
            unfold readStringBody
            simp [h1, h2, ih rest]

end GoGerrit

namespace GoGerrit

theorem digitChar_spec : ∀ d < 10, digitVal (digitChar d) = d ∧ isDigitCh (digitChar d) = true := by
  decide

theorem renderNat_ne_nil (n : Nat) : renderNat n ≠ [] := by
  unfold renderNat
  split
  · simp
  · simp

theorem renderNat_digits : ∀ n, ∀ c ∈ renderNat n, isDigitCh c = true := by
  intro n
  induction n using Nat.strong_induction_on with
  | _ n ih =>
      intro c hc
      unfold renderNat at hc
      split at hc
      · rename_i h
        simp at hc
        subst hc
        have := digitChar_spec n (by omega)
        exact this.2
      · rename_i h
        rw [List.mem_append] at hc
        rcases hc with hc | hc
        · exact ih (n / 10) (Nat.div_lt_self (by omega) (by omega)) c hc
        · simp at hc
          subst hc
          have := digitChar_spec (n % 10) (Nat.mod_lt _ (by omega))
          exact this.2

theorem readDigits_cons (acc : Nat) (c : Char) (cs : List Char) :
    readDigits acc (c :: cs) =
      if isDigitCh c then readDigits (acc * 10 + digitVal c) cs
      else (acc, c :: cs) := rfl

theorem readDigits_stop (acc : Nat) (rest : List Char)
    (h : headIsDigit rest = false) : readDigits acc rest = (acc, rest) := by
  cases rest with
  | nil => rfl
  | cons c cs =>
      have hc : isDigitCh c = false := h
      rw [readDigits_cons, if_neg (by simp [hc])]

theorem readDigits_digits :
    ∀ ds acc rest, (∀ c ∈ ds, isDigitCh c = true) →
      readDigits acc (ds ++ rest) =
        readDigits (ds.foldl (fun a c => a * 10 + digitVal c) acc) rest := by
  intro ds
  induction ds with
  | nil => intro acc rest h; rfl
  | cons c cs ih =>
      intro acc rest h
      have hc : isDigitCh c = true := h c (by simp)
      show readDigits acc (c :: (cs ++ rest)) = _
      rw [readDigits_cons, if_pos hc]
      rw [ih (acc * 10 + digitVal c) rest (fun d hd => h d (by simp [hd]))]
      rw [List.foldl_cons]

theorem foldl_renderNat :
    ∀ n acc, (renderNat n).foldl (fun a c => a * 10 + digitVal c) acc =
      acc * 10 ^ (renderNat n).length + n := by
  intro n
  induction n using Nat.strong_induction_on with
  | _ n ih =>
      intro acc
      unfold renderNat
      split
      · rename_i h
        simp [digitChar_spec n (by omega) |>.1]
      · rename_i h
        rw [List.foldl_append]
        rw [ih (n / 10) (Nat.div_lt_self (by omega) (by omega)) acc]
        rw [List.foldl_cons, List.foldl_nil]
        rw [digitChar_spec (n % 10) (Nat.mod_lt _ (by omega)) |>.1]
        rw [List.length_append, List.length_singleton, pow_succ]
        have hmul : acc * (10 ^ (renderNat (n / 10)).length * 10) =
            acc * 10 ^ (renderNat (n / 10)).length * 10 := by ring
        rw [hmul]
        omega

theorem readDigits_renderNat (n acc : Nat) (rest : List Char)
    (h : headIsDigit rest = false) :
    readDigits acc (renderNat n ++ rest) =
      (acc * 10 ^ (renderNat n).length + n, rest) := by
  rw [readDigits_digits (renderNat n) acc rest (renderNat_digits n)]
  rw [readDigits_stop _ _ h]
  rw [foldl_renderNat]

theorem renderNat_head_digit (n : Nat) :
    ∃ c cs, renderNat n = c :: cs ∧ isDigitCh c = true := by
  rcases hr : renderNat n with _ | ⟨c, cs⟩
  · exact absurd hr (renderNat_ne_nil n)
  · exact ⟨c, cs, rfl, renderNat_digits n c (by rw [hr]; simp)⟩

end GoGerrit

namespace GoGerrit

theorem isDigit_ne (c : Char) (h : isDigitCh c = true) :
    c ≠ 'n' ∧ c ≠ 't' ∧ c ≠ 'f' ∧ c ≠ quoteChar ∧ c ≠ '-' ∧ c ≠ '[' ∧
      c ≠ lcurly ∧ c ≠ ']' ∧ c ≠ rcurly ∧ c ≠ ',' ∧ c ≠ ':' := by
  refine ⟨?_, ?_, ?_, ?_, ?_, ?_, ?_, ?_, ?_, ?_, ?_⟩ <;>
    (intro hh; subst hh; exact absurd h (by decide))

theorem parseVal_cons (fuel : Nat) (c : Char) (cs : List Char) :
    parseVal (fuel + 1) (c :: cs) =
      (if c = 'n' then
        match cs with
        | 'u' :: 'l' :: 'l' :: r => some (.null, r)
        | _ => none
      else if c = 't' then
        match cs with
        | 'r' :: 'u' :: 'e' :: r => some (.bool true, r)
        | _ => none
      else if c = 'f' then
        match cs with
        | 'a' :: 'l' :: 's' :: 'e' :: r => some (.bool false, r)
        | _ => none
      else if c = quoteChar then
        match readStringBody cs with
        | none => none
        | some (s, r) => some (.str ⟨s⟩, r)
      else if c = '-' then
        match cs with
        | [] => none
        | d :: _ =>
            if isDigitCh d then
              let (n, r) := readDigits 0 cs
              some (.num (-(n : Int)), r)
            else none
      else if isDigitCh c then
        let (n, r) := readDigits 0 (c :: cs)
        some (.num (n : Int), r)
      else if c = '[' then
        match cs with
        | ']' :: r => some (.arr .nil, r)
        | _ =>
            match parseElems fuel cs with
            | none => none
            | some (es, r) => some (.arr es, r)
      else if c = lcurly then
        match cs with
        | d :: r =>
            if d = rcurly then some (.obj .nil, r)
            else
              match parseFields fuel (d :: r) with
              | none => none
              | some (fs, r') => some (.obj fs, r')
        | [] => none
      else none) := rfl

theorem parseElems_succ (fuel : Nat) (input : List Char) :
    parseElems (fuel + 1) input =
      (match parseVal fuel input with
      | none => none
      | some (j, rest) =>
          match rest with
          | ',' :: rs =>
              match parseElems fuel rs with
              | none => none
              | some (tl, r) => some (.cons j tl, r)
          | ']' :: rs => some (.cons j .nil, rs)
          | _ => none) := rfl

theorem parseFields_succ (fuel : Nat) (input : List Char) :
    parseFields (fuel + 1) input =
      (match input with
      | c :: cs =>
          if c = quoteChar then
            match readStringBody cs with
            | none => none
            | some (k, r) =>
                match r with
                | ':' :: r' =>
                    match parseVal fuel r' with
                    | none => none
                    | some (v, rest) =>
                        match rest with
                        | ',' :: rs =>
                            match parseFields fuel rs with
                            | none => none
                            | some (tl, r'') => some (.cons ⟨k⟩ v tl, r'')
                        | d :: rs =>
                            if d = rcurly then some (.cons ⟨k⟩ v .nil, rs)
                            else none
                        | _ => none
                | _ => none
          else none
      | [] => none) := rfl

end GoGerrit

namespace GoGerrit

theorem parseVal_num (fuel : Nat) (i : Int) (rest : List Char)
    (h : headIsDigit rest = false) :
    parseVal (fuel + 1) (renderInt i ++ rest) = some (.num i, rest) := by
  by_cases hneg : i < 0
  · rw [renderInt, if_pos hneg]
    obtain ⟨c, cs, hrn, hcd⟩ := renderNat_head_digit i.natAbs
    show parseVal (fuel + 1) ('-' :: (renderNat i.natAbs ++ rest)) = _
    rw [parseVal_cons]
    rw [if_neg (by decide : ¬ '-' = 'n'), if_neg (by decide : ¬ '-' = 't'),
      if_neg (by decide : ¬ '-' = 'f'), if_neg (by decide : ¬ '-' = quoteChar),
      if_pos rfl]
    rw [hrn]
    show (match c :: (cs ++ rest) with
      | [] => none
      | d :: _ =>
          if isDigitCh d then
            let (n, r) := readDigits 0 (c :: (cs ++ rest))
            some (Json.num (-(n : Int)), r)
          else none) = some (Json.num i, rest)
    dsimp only
    rw [if_pos hcd]
    rw [show c :: (cs ++ rest) = (c :: cs) ++ rest from rfl, ← hrn]
    rw [readDigits_renderNat i.natAbs 0 rest h]
    simp only [Option.some.injEq, Prod.mk.injEq]
    exact ⟨by congr 1; omega, by trivial⟩
  · rw [renderInt, if_neg hneg]
    obtain ⟨c, cs, hrn, hcd⟩ := renderNat_head_digit i.toNat
    rw [hrn]
    show parseVal (fuel + 1) (c :: (cs ++ rest)) = _
    obtain ⟨hn, ht, hf, hq, hm, _, _, _, _, _, _⟩ := isDigit_ne c hcd
    rw [parseVal_cons]
    rw [if_neg hn, if_neg ht, if_neg hf, if_neg hq, if_neg hm, if_pos hcd]
    dsimp only
    rw [show c :: (cs ++ rest) = (c :: cs) ++ rest from rfl, ← hrn]
    rw [readDigits_renderNat i.toNat 0 rest h]
    simp only [Option.some.injEq, Prod.mk.injEq]
    exact ⟨by congr 1; omega, by trivial⟩

end GoGerrit

namespace GoGerrit

theorem renderV_head (j : Json) :
    ∃ c cs, renderV j = c :: cs ∧ c ≠ ']' ∧ c ≠ rcurly ∧ c ≠ ',' := by
  cases j with
  | num i =>
      by_cases hneg : i < 0
      · refine ⟨'-', renderNat i.natAbs, ?_, ?_⟩
        · show renderInt i = _
          rw [renderInt, if_pos hneg]
        · refine ⟨?_, ?_, ?_⟩ <;> decide
      · obtain ⟨c, cs, hrn, hcd⟩ := renderNat_head_digit i.toNat
        obtain ⟨_, _, _, _, _, _, _, hb, hr, hcm, _⟩ := isDigit_ne c hcd
        refine ⟨c, cs, ?_, hb, hr, hcm⟩
        show renderInt i = _
        rw [renderInt, if_neg hneg, hrn]
  | bool b =>
      rcases b
      · refine ⟨'f', _, rfl, ?_, ?_, ?_⟩ <;> decide
      · refine ⟨'t', _, rfl, ?_, ?_, ?_⟩ <;> decide
  | null =>
      refine ⟨'n', ['u', 'l', 'l'], rfl, ?_, ?_, ?_⟩ <;> decide
  | str s =>
      refine ⟨quoteChar, _, rfl, ?_, ?_, ?_⟩ <;> decide
  | arr es =>
      refine ⟨'[', _, rfl, ?_, ?_, ?_⟩ <;> decide
  | obj fs =>
      refine ⟨lcurly, _, rfl, ?_, ?_, ?_⟩ <;> decide

theorem jfuelV_pos (j : Json) : 1 ≤ jfuelV j := by
  cases j with
  | null => simp [jfuelV]
  | bool b => simp [jfuelV]
  | num i => simp [jfuelV]
  | str s => simp [jfuelV]
  | arr es => cases es <;> simp [jfuelV]
  | obj fs => cases fs <;> simp [jfuelV]

end GoGerrit

namespace GoGerrit

theorem parse_complete (fuel : Nat) :
    (∀ j rest, jfuelV j ≤ fuel → headIsDigit rest = false →
        parseVal fuel (renderV j ++ rest) = some (j, rest)) ∧
    (∀ h tl rest, jfuelElems (.cons h tl) ≤ fuel → headIsDigit rest = false →
        parseElems fuel (renderElems (.cons h tl) ++ (']' :: rest)) =
          some (.cons h tl, rest)) ∧
    (∀ k v tl rest, jfuelFields (.cons k v tl) ≤ fuel →
        headIsDigit rest = false →
        parseFields fuel (renderFields (.cons k v tl) ++ (rcurly :: rest)) =
          some (.cons k v tl, rest)) := by
  induction fuel with
  | zero =>
      refine ⟨?_, ?_, ?_⟩
      · intro j rest hle _
        exact absurd hle (by have := jfuelV_pos j; omega)
      · intro h tl rest hle _
        exfalso
        have : 1 + jfuelV h + jfuelElems tl ≤ 0 := by
          simpa [jfuelElems] using hle
        omega
      · intro k v tl rest hle _
        exfalso
        have : 1 + jfuelV v + jfuelFields tl ≤ 0 := by
          simpa [jfuelFields] using hle
        omega
  | succ fuel ih =>
      obtain ⟨ihV, ihE, ihF⟩ := ih
      refine ⟨?_, ?_, ?_⟩
      · intro j rest hle hrest
        cases j with
        | null => rfl
        | bool b => cases b <;> rfl
        | num i => exact parseVal_num fuel i rest hrest
        | str s =>
            show parseVal (fuel + 1)
              (quoteChar :: ((escapeStr s.data ++ [quoteChar]) ++ rest)) = _
            rw [parseVal_cons]
            rw [if_neg (by decide : ¬quoteChar = 'n'),
              if_neg (by decide : ¬quoteChar = 't'),
              if_neg (by decide : ¬quoteChar = 'f'), if_pos rfl]
            rw [show (escapeStr s.data ++ [quoteChar]) ++ rest =
              escapeStr s.data ++ (quoteChar :: rest) by simp]
            rw [readStringBody_escape s.data rest]
        | arr es =>
            cases es with
            | nil => rfl
            | cons h tl =>
                have hfe : jfuelElems (.cons h tl) ≤ fuel := by
                  have : 1 + jfuelElems (.cons h tl) ≤ fuel + 1 := by
                    simpa [jfuelV] using hle
                  omega
                show parseVal (fuel + 1)
                  ('[' :: ((renderElems (.cons h tl) ++ [']']) ++ rest)) = _
                rw [parseVal_cons]
                rw [if_neg (by decide : ¬ '[' = 'n'),
                  if_neg (by decide : ¬ '[' = 't'),
                  if_neg (by decide : ¬ '[' = 'f'),
                  if_neg (by decide : ¬ '[' = quoteChar),
                  if_neg (by decide : ¬ '[' = '-'),
                  if_neg (by simp [(by decide : isDigitCh '[' = false)]),
                  if_pos rfl]
                rw [show (renderElems (.cons h tl) ++ [']']) ++ rest =
                  renderElems (.cons h tl) ++ (']' :: rest) by simp]
                obtain ⟨c0, cs0, hh, hb, _, _⟩ := renderV_head h
                have hshape : ∃ Y, renderElems (.cons h tl) ++ (']' :: rest) =
                    c0 :: Y := by
                  cases tl with
                  | nil => exact ⟨cs0 ++ (']' :: rest), by simp [renderElems, hh]⟩
                  | cons h' tl' =>
                      exact ⟨cs0 ++ (',' :: renderElems (.cons h' tl')) ++
                        (']' :: rest), by simp [renderElems, hh]⟩
                obtain ⟨Y, hY⟩ := hshape
                rw [hY]
                split
                · rename_i r heq
                  exact absurd (List.cons.injEq .. ▸ heq).1 hb
                · rw [← hY, ihE h tl rest hfe hrest]
        | obj fs =>
            cases fs with
            | nil => rfl
            | cons k v tl =>
                have hfe : jfuelFields (.cons k v tl) ≤ fuel := by
                  have : 1 + jfuelFields (.cons k v tl) ≤ fuel + 1 := by
                    simpa [jfuelV] using hle
                  omega
                show parseVal (fuel + 1)
                  (lcurly :: ((renderFields (.cons k v tl) ++ [rcurly]) ++ rest)) = _
                rw [parseVal_cons]
                rw [if_neg (by decide : ¬lcurly = 'n'),
                  if_neg (by decide : ¬lcurly = 't'),
                  if_neg (by decide : ¬lcurly = 'f'),
                  if_neg (by decide : ¬lcurly = quoteChar),
                  if_neg (by decide : ¬lcurly = '-'),
                  if_neg (by simp [(by decide : isDigitCh lcurly = false)]),
                  if_neg (by decide : ¬lcurly = '['), if_pos rfl]
                rw [show (renderFields (.cons k v tl) ++ [rcurly]) ++ rest =
                  renderFields (.cons k v tl) ++ (rcurly :: rest) by simp]
                have hshape : ∃ Y, renderFields (.cons k v tl) ++ (rcurly :: rest) =
                    quoteChar :: Y := by
                  cases tl with
                  | nil =>
                      exact ⟨escapeStr k.data ++
                        (quoteChar :: (':' :: (renderV v ++ (rcurly :: rest)))),
                        by simp [renderFields]⟩
                  | cons k' v' tl' =>
                      exact ⟨escapeStr k.data ++
                        (quoteChar :: (':' :: (renderV v ++
                          (',' :: (renderFields (.cons k' v' tl') ++
                            (rcurly :: rest)))))),
                        by simp [renderFields]⟩
                obtain ⟨Y, hY⟩ := hshape
                rw [hY]
                dsimp only
                rw [if_neg (by decide : ¬quoteChar = rcurly)]
                rw [← hY, ihF k v tl rest hfe hrest]
      · intro h tl rest hle hrest
        rw [parseElems_succ]
        cases tl with
        | nil =>
            have hjf : jfuelV h ≤ fuel := by
              have : 1 + jfuelV h + 0 ≤ fuel + 1 := by
                simpa [jfuelElems] using hle
              omega
            show (match parseVal fuel (renderV h ++ (']' :: rest)) with
              | none => none
              | some (j, rest) =>
                  match rest with
                  | ',' :: rs =>
                      match parseElems fuel rs with
                      | none => none
                      | some (tl, r) => some (JsonList.cons j tl, r)
                  | ']' :: rs => some (JsonList.cons j JsonList.nil, rs)
                  | _ => none) = some (JsonList.cons h JsonList.nil, rest)
            rw [ihV h (']' :: rest) hjf rfl]
            rfl
        | cons h' tl' =>
            have hjf : jfuelV h ≤ fuel ∧ jfuelElems (.cons h' tl') ≤ fuel := by
              have : 1 + jfuelV h + jfuelElems (.cons h' tl') ≤ fuel + 1 := by
                simpa [jfuelElems] using hle
              omega
            rw [show renderElems (.cons h (.cons h' tl')) ++ (']' :: rest) =
              renderV h ++ (',' :: (renderElems (.cons h' tl') ++ (']' :: rest)))
              by simp [renderElems]]
            rw [ihV h (',' :: (renderElems (.cons h' tl') ++ (']' :: rest)))
              hjf.1 rfl]
            show (match parseElems fuel
                (renderElems (.cons h' tl') ++ (']' :: rest)) with
              | none => none
              | some (tl, r) => some (JsonList.cons h tl, r)) =
              some (JsonList.cons h (JsonList.cons h' tl'), rest)
            rw [ihE h' tl' rest hjf.2 hrest]
      · intro k v tl rest hle hrest
        rw [parseFields_succ]
        cases tl with
        | nil =>
            have hjf : jfuelV v ≤ fuel := by
              have : 1 + jfuelV v + 0 ≤ fuel + 1 := by
                simpa [jfuelFields] using hle
              omega
            rw [show renderFields (.cons k v .nil) ++ (rcurly :: rest) =
              quoteChar :: (escapeStr k.data ++
                (quoteChar :: (':' :: (renderV v ++ (rcurly :: rest)))))
              by simp [renderFields]]
            dsimp only
            rw [if_pos rfl]
            rw [readStringBody_escape k.data (':' :: (renderV v ++ (rcurly :: rest)))]
            show (match parseVal fuel (renderV v ++ (rcurly :: rest)) with
              | none => none
              | some (v', rest') =>
                  match rest' with
                  | ',' :: rs =>
                      match parseFields fuel rs with
                      | none => none
                      | some (tl, r'') => some (JsonObj.cons ⟨k.data⟩ v' tl, r'')
                  | d :: rs =>
                      if d = rcurly then some (JsonObj.cons ⟨k.data⟩ v' JsonObj.nil, rs)
                      else none
                  | _ => none) = some (JsonObj.cons k v JsonObj.nil, rest)
            rw [ihV v (rcurly :: rest) hjf rfl]
            rfl
        | cons k' v' tl' =>
            have hjf : jfuelV v ≤ fuel ∧ jfuelFields (.cons k' v' tl') ≤ fuel := by
              have : 1 + jfuelV v + jfuelFields (.cons k' v' tl') ≤ fuel + 1 := by
                simpa [jfuelFields] using hle
              omega
            rw [show renderFields (.cons k v (.cons k' v' tl')) ++ (rcurly :: rest) =
              quoteChar :: (escapeStr k.data ++
                (quoteChar :: (':' :: (renderV v ++
                  (',' :: (renderFields (.cons k' v' tl') ++ (rcurly :: rest)))))))
              by simp [renderFields]]
            dsimp only
            rw [if_pos rfl]
            rw [readStringBody_escape k.data
              (':' :: (renderV v ++
                (',' :: (renderFields (.cons k' v' tl') ++ (rcurly :: rest)))))]
            show (match parseVal fuel (renderV v ++
                (',' :: (renderFields (.cons k' v' tl') ++ (rcurly :: rest)))) with
              | none => none
              | some (v2, rest') =>
                  match rest' with
                  | ',' :: rs =>
                      match parseFields fuel rs with
                      | none => none
                      | some (tl, r'') => some (JsonObj.cons ⟨k.data⟩ v2 tl, r'')
                  | d :: rs =>
                      if d = rcurly then some (JsonObj.cons ⟨k.data⟩ v2 JsonObj.nil, rs)
                      else none
                  | _ => none) =
              some (JsonObj.cons k v (JsonObj.cons k' v' tl'), rest)
            rw [ihV v (',' :: (renderFields (.cons k' v' tl') ++ (rcurly :: rest)))
              hjf.1 rfl]
            show (match parseFields fuel
                (renderFields (.cons k' v' tl') ++ (rcurly :: rest)) with
              | none => none
              | some (tl, r'') => some (JsonObj.cons ⟨k.data⟩ v tl, r'')) =
              some (JsonObj.cons k v (JsonObj.cons k' v' tl'), rest)
            rw [ihF k' v' tl' rest hjf.2 hrest]

end GoGerrit

namespace GoGerrit

theorem renderInt_ne_nil (i : Int) : renderInt i ≠ [] := by
  unfold renderInt
  split
  · simp
  · exact renderNat_ne_nil _

mutual

theorem jfuelV_le_length : ∀ j : Json, jfuelV j ≤ (renderV j).length
  | .null => by simp [jfuelV, renderV]
  | .bool true => by simp [jfuelV, renderV]
  | .bool false => by simp [jfuelV, renderV]
  | .num i => by
      have hne := renderInt_ne_nil i
      have hlen : 1 ≤ (renderInt i).length := by
        cases hr : renderInt i with
        | nil => exact absurd hr hne
        | cons c cs => simp
      simpa [jfuelV, renderV] using hlen
  | .str s => by simp [jfuelV, renderV]
  | .arr .nil => by simp [jfuelV, renderV, renderElems]
  | .arr (.cons h tl) => by
      have := jfuelElems_le_length (.cons h tl)
      simp only [jfuelV, renderV, List.length_cons, List.length_append,
        List.length_singleton]
      omega
  | .obj .nil => by simp [jfuelV, renderV, renderFields]
  | .obj (.cons k v tl) => by
      have := jfuelFields_le_length (.cons k v tl)
      simp only [jfuelV, renderV, List.length_cons, List.length_append,
        List.length_singleton]
      omega

theorem jfuelElems_le_length :
    ∀ es : JsonList, jfuelElems es ≤ (renderElems es).length + 1
  | .nil => by simp [jfuelElems, renderElems]
  | .cons h .nil => by
      have := jfuelV_le_length h
      simp only [jfuelElems, renderElems]
      omega
  | .cons h (.cons h' tl) => by
      have h1 := jfuelV_le_length h
      have h2 := jfuelElems_le_length (.cons h' tl)
      simp only [jfuelElems] at h2
      simp only [jfuelElems, renderElems, List.length_append, List.length_cons]
      omega

theorem jfuelFields_le_length :
    ∀ fs : JsonObj, jfuelFields fs ≤ (renderFields fs).length + 1
  | .nil => by simp [jfuelFields, renderFields]
  | .cons k v .nil => by
      have := jfuelV_le_length v
      simp only [jfuelFields, renderFields, List.length_cons, List.length_append,
        List.length_singleton]
      omega
  | .cons k v (.cons k' v' tl) => by
      have h1 := jfuelV_le_length v
      have h2 := jfuelFields_le_length (.cons k' v' tl)
      simp only [jfuelFields] at h2
      simp only [jfuelFields, renderFields, List.length_cons, List.length_append,
        List.length_singleton]
      omega

end

/-- Round trip of the JSON embedding: decoding the rendered form of any
value yields the value back (the body is valid JSON deserializing to an
equivalent value). -/
theorem parseJson_renderJson (j : Json) : parseJson (renderJson j) = some j := by
  unfold parseJson renderJson parseJsonL
  have hdata : (String.mk (renderV j)).data = renderV j := rfl
  rw [hdata]
  have hfuel : jfuelV j ≤ (renderV j).length + 1 := by
    have := jfuelV_le_length j
    omega
  have hmain := (parse_complete ((renderV j).length + 1)).1 j [] hfuel rfl
  rw [show renderV j ++ ([] : List Char) = renderV j by simp] at hmain
  rw [hmain]

end GoGerrit

namespace GoGerrit

theorem applyAuth_preserves (r : Requester) (q : GoRequest) :
    (applyAuth r q).contentType = q.contentType ∧
      (applyAuth r q).body = q.body := by
  unfold applyAuth
  split
  · split
    · exact ⟨rfl, rfl⟩
    · split
      · exact ⟨rfl, rfl⟩
      · exact ⟨rfl, rfl⟩
  · exact ⟨rfl, rfl⟩

/-- C2 counterexample: a POST with the raw string payload `x` carries the
Content-Type `plain/text;charset=UTF-8` (src/request.go line 80), which is
not the `text/plain` the claim states. -/
theorem post_string_content_type_not_text_plain :
    rBasic.newRequest "POST" "changes/" (some (.str "x")) =
      .ok { method := "POST", url := "http://example.com/a/changes/",
            contentType := some plainTextCT, accept := some "application/json",
            cookies := [], basicAuth := some ("admin", "secret"),
            body := some "x" } ∧
    plainTextCT ≠ "text/plain" :=
  ⟨rfl, by decide⟩

/-- C2 as amended: for every POST or PUT call, a raw string payload is
sent verbatim as the body under the Content-Type
`plain/text;charset=UTF-8` (the literal the code writes, in place of the
claimed `text/plain`), and every non-string payload is JSON-marshalled
under `application/json` into a body that is valid JSON deserializing
back to an equivalent value. -/
theorem post_put_body_matches_payload (r : Requester)
    (method endpoint : String) (o : GoOpt)
    (hm : method = "POST" ∨ method = "PUT") :
    ∃ req, r.newRequest method endpoint (some o) = .ok req ∧
      (∀ s, o = .str s → req.body = some s ∧
        req.contentType = some plainTextCT) ∧
      (∀ j, o = .json j → req.body = some (renderJson j) ∧
        req.contentType = some "application/json" ∧
        parseJson (renderJson j) = some j) := by
  rcases hm with rfl | rfl
  · rcases o with s | j
    · refine ⟨_, rfl, ?_, ?_⟩
      · intro s' hs
        cases hs
        exact ⟨(applyAuth_preserves r _).2.trans rfl,
          (applyAuth_preserves r _).1.trans rfl⟩
      · intro j hj
        simp at hj
    · refine ⟨_, rfl, ?_, ?_⟩
      · intro s hs
        simp at hs
      · intro j' hj
        cases hj
        exact ⟨(applyAuth_preserves r _).2.trans rfl,
          (applyAuth_preserves r _).1.trans rfl, parseJson_renderJson _⟩
  · rcases o with s | j
    · refine ⟨_, rfl, ?_, ?_⟩
      · intro s' hs
        cases hs
        exact ⟨(applyAuth_preserves r _).2.trans rfl,
          (applyAuth_preserves r _).1.trans rfl⟩
      · intro j hj
        simp at hj
    · refine ⟨_, rfl, ?_, ?_⟩
      · intro s hs
        simp at hs
      · intro j' hj
        cases hj
        exact ⟨(applyAuth_preserves r _).2.trans rfl,
          (applyAuth_preserves r _).1.trans rfl, parseJson_renderJson _⟩

end GoGerrit

namespace GoGerrit

/-- Witness for C2 as amended: the spec's POST scenario payload is
JSON-marshalled under `application/json` and round-trips through the
decoder. -/
theorem post_put_body_matches_payload_witness :
    ("POST" = "POST" ∨ "POST" = "PUT") ∧
    ∃ req, rBasic.newRequest "POST" "changes/" (some (.json changeInputEx)) =
        .ok req ∧
      req.body = some (renderJson changeInputEx) ∧
      req.contentType = some "application/json" ∧
      parseJson (renderJson changeInputEx) = some changeInputEx := by
  refine ⟨Or.inl rfl, ?_⟩
  obtain ⟨req, h1, _, h3⟩ := post_put_body_matches_payload rBasic "POST"
    "changes/" (.json changeInputEx) (Or.inl rfl)
  obtain ⟨hb, hc, hp⟩ := h3 changeInputEx rfl
  exact ⟨req, h1, hb, hc, hp⟩

/-- C4: on a successful response decoded into a structured destination,
the decoder of src/request.go parses the body with the magic sentinel
removed — a sentinel-prefixed body decodes exactly as the body with the
sentinel stripped would, and a body without the sentinel (including one
shorter than the sentinel) is untouched by the stripper and still decodes
whenever it is well-formed JSON. -/
theorem do_structured_strips_sentinel (resp : GoResponse)
    (h2xx : 200 ≤ resp.statusCode ∧ resp.statusCode ≤ 299) :
    (∀ rest, resp.body = magicLine ++ rest →
        parseJsonL (removeMagicLine resp.body) = parseJsonL rest ∧
        ∀ j, parseJsonL rest = some j →
          doDecode resp .structured = (resp, .ok (.value j))) ∧
    (¬ magicLine <+: resp.body →
        removeMagicLine resp.body = resp.body ∧
        ∀ j, parseJsonL resp.body = some j →
          doDecode resp .structured = (resp, .ok (.value j))) := by
  constructor
  · intro rest hbody
    have hs : removeMagicLine resp.body = rest := by
      rw [hbody]; exact removeMagicLine_append rest
    refine ⟨by rw [hs], ?_⟩
    intro j hj
    unfold doDecode checkResponse
    rw [if_pos h2xx]
    dsimp only
    rw [hs, hj]
  · intro hnot
    have hs := removeMagicLine_of_not hnot
    refine ⟨hs, ?_⟩
    intro j hj
    unfold doDecode checkResponse
    rw [if_pos h2xx]
    dsimp only
    rw [hs, hj]

/-- Witness for C4: a 200 response whose body is the sentinel followed by
`[1]` decodes to the one-element array. -/
theorem do_structured_strips_sentinel_witness :
    (200 ≤ respArr.statusCode ∧ respArr.statusCode ≤ 299) ∧
      doDecode respArr .structured =
        (respArr, .ok (.value (.arr (.cons (.num 1) .nil)))) := by
  refine ⟨by decide, ?_⟩
  exact ((do_structured_strips_sentinel respArr (by decide)).1 "[1]".data
    rfl).2 (.arr (.cons (.num 1) .nil)) (by decide)

end GoGerrit

namespace GoGerrit

theorem countASlash_append (xs ys : List Char) :
    countASlash (xs ++ ys) = countASlash xs + countASlash ys +
      (if lastIs xs 'a' ∧ headIs ys '/' then 1 else 0) := by
  induction xs with
  | nil => simp [countASlash, lastIs]
  | cons c cs ih =>
      cases cs with
      | nil =>
          cases ys with
          | nil => simp [countASlash, headIs]
          | cons y yt =>
              show countASlash (c :: y :: yt) = _
              rw [show countASlash (c :: y :: yt) =
                (if c = 'a' ∧ y = '/' then 1 else 0) + countASlash (y :: yt)
                from rfl]
              rw [show countASlash [c] = 0 from rfl]
              rw [show lastIs [c] 'a' = decide (c = 'a') from rfl]
              rw [show headIs (y :: yt) '/' = decide (y = '/') from rfl]
              by_cases hc : c = 'a' ∧ y = '/'
              · rw [if_pos hc, if_pos (by simp [hc.1, hc.2])]
                omega
              · rw [if_neg hc, if_neg (by
                  intro hcontra
                  exact hc ⟨by simpa using hcontra.1, by simpa using hcontra.2⟩)]
                omega
      | cons c2 cs2 =>
          show countASlash (c :: c2 :: (cs2 ++ ys)) = _
          rw [show countASlash (c :: c2 :: (cs2 ++ ys)) =
            (if c = 'a' ∧ c2 = '/' then 1 else 0) +
              countASlash (c2 :: (cs2 ++ ys)) from rfl]
          rw [show (c2 :: (cs2 ++ ys) : List Char) = (c2 :: cs2) ++ ys
            from rfl]
          rw [ih]
          rw [show countASlash (c :: c2 :: cs2) =
            (if c = 'a' ∧ c2 = '/' then 1 else 0) + countASlash (c2 :: cs2)
            from rfl]
          rw [show lastIs (c :: c2 :: cs2) 'a' = lastIs (c2 :: cs2) 'a' by
            simp [lastIs, List.getLast?_cons_cons]]
          omega

theorem lastIs_slash_not_a {l : List Char} (h : lastIs l '/' = true) :
    lastIs l 'a' = false := by
  unfold lastIs at h ⊢
  cases hg : l.getLast? with
  | none => rw [hg] at h
  | some d =>
      rw [hg] at h
      have hd : d = '/' := by simpa using h
      subst hd
      rfl

theorem headIs_querySuffix (opt : Option GoOpt) :
    headIs (querySuffix opt).data '/' = false := by
  unfold querySuffix
  rcases opt with _ | o
  · rfl
  · rcases o with s | j
    · rfl
    · rcases j with _ | b | n | s | es | fs
      · rfl
      · rfl
      · rfl
      · rfl
      · rfl
      · dsimp only
        split
        · rfl
        · rfl

theorem addOptions_shape (url : String) (opt : Option GoOpt) (u : String)
    (h : addOptions url opt = .ok u) : u = url ++ querySuffix opt := by
  unfold addOptions at h
  unfold querySuffix
  rcases opt with _ | o
  · simp at h
    simp [← h]
  · rcases o with s | j
    · simp at h
    · rcases j with _ | b | n | s | es | fs
      · simp at h
      · simp at h
      · simp at h
      · simp at h
      · simp at h
      · dsimp only at h ⊢
        split at h
        · rename_i hps
          rw [if_pos hps]
          simp at h
          simp [← h]
        · rename_i hps
          rw [if_neg hps]
          simp at h
          simp [← h]

end GoGerrit

namespace GoGerrit

theorem applyAuth_url (r : Requester) (q : GoRequest) :
    (applyAuth r q).url = q.url := by
  unfold applyAuth
  split
  · split
    · rfl
    · split
      · rfl
      · rfl
  · rfl

theorem attachBody_url (q : GoRequest) (method : String) (opt : Option GoOpt) :
    (attachBody q method opt).url = q.url := by
  unfold attachBody
  rcases opt with _ | o
  · rfl
  · dsimp only
    split
    · rcases o with s | j <;> rfl
    · rfl

theorem newRequest_url (r : Requester) (method endpoint : String)
    (opt : Option GoOpt) (req : GoRequest)
    (hreq : r.newRequest method endpoint opt = .ok req) :
    req.url = (r.baseURL.render ++
        (if r.hasAuth then "a/" ++ goTrimPre endpoint "/"
         else goTrimPre endpoint "/")) ++
      (if method = "GET" then querySuffix opt else "") := by
  unfold Requester.newRequest at hreq
  by_cases hG : method = "GET"
  · rw [if_pos hG] at hreq
    rw [if_pos hG]
    rcases ha : addOptions (r.baseURL.render ++
        (if r.hasAuth then "a/" ++ goTrimPre endpoint "/"
         else goTrimPre endpoint "/")) opt with e | u
    · rw [ha] at hreq
      simp [Bind.bind, Except.bind] at hreq
    · rw [ha] at hreq
      simp only [Bind.bind, Except.bind, pure, Except.pure,
        Except.ok.injEq] at hreq
      subst hreq
      show (applyAuth r (attachBody _ method opt)).url = _
      rw [applyAuth_url, attachBody_url]
      exact addOptions_shape _ _ _ ha
  · rw [if_neg hG] at hreq
    rw [if_neg hG]
    simp only [Bind.bind, Except.bind, pure, Except.pure,
      Except.ok.injEq] at hreq
    subst hreq
    show (applyAuth r (attachBody _ method opt)).url = _
    rw [applyAuth_url, attachBody_url]
    simp

end GoGerrit

namespace GoGerrit

/-- C3 counterexample: with a base URL that carries a path prefix
(`http://h/pre/`) and basic authentication configured, the built URL is
`http://h/pre/a/x` — the authenticated-path segment sits after the base
path, not immediately after the host as the claim states. -/
theorem auth_prefix_not_immediately_after_host :
    rBasicPre.hasAuth = true ∧
    rBasicPre.newRequest "GET" "x" none =
      .ok { method := "GET", url := "http://h/pre/a/x", contentType := none,
            accept := some "application/json", cookies := [],
            basicAuth := some ("admin", "secret"), body := none } ∧
    countASlash ("http://h/pre/a/x").data = 1 ∧
    ¬ ("http://h/a/").data.isPrefixOf ("http://h/pre/a/x").data :=
  ⟨rfl, rfl, by decide, by decide⟩

/-- C3 as amended: whenever the authentication scheme, username and secret
are all configured, the built URL contains the authenticated-path segment
`a/` exactly once, placed immediately after the rendered base URL (host
plus the base URL's path prefix); with any of the three empty, the
segment is absent.  The hypotheses pin the well-formed shape: the
normalized base URL ends in a separator and neither base, trimmed
endpoint nor encoded query contains an `a/` of its own. -/
theorem auth_prefix_once_after_base (r : Requester) (method endpoint : String)
    (opt : Option GoOpt) (req : GoRequest)
    (hreq : r.newRequest method endpoint opt = .ok req)
    (hslash : lastIs r.baseURL.render.data '/' = true)
    (hbase0 : countASlash r.baseURL.render.data = 0)
    (hep : countASlash (goTrimPre endpoint "/").data = 0)
    (hq : countASlash (querySuffix opt).data = 0) :
    (r.hasAuth = true →
        countASlash req.url.data = 1 ∧
        ∃ tail, req.url.data =
          r.baseURL.render.data ++ ('a' :: '/' :: tail)) ∧
    (r.hasAuth = false → countASlash req.url.data = 0) := by
  have hurl := newRequest_url r method endpoint opt req hreq
  have hnota : lastIs r.baseURL.render.data 'a' = false :=
    lastIs_slash_not_a hslash
  have hqs0 : countASlash
      (if method = "GET" then querySuffix opt else "").data = 0 := by
    split
    · exact hq
    · rfl
  have hqsh : headIs
      (if method = "GET" then querySuffix opt else "").data '/' = false := by
    split
    · exact headIs_querySuffix opt
    · rfl
  set qs := (if method = "GET" then querySuffix opt else "") with hqdef
  set ep := goTrimPre endpoint "/" with hepdef
  constructor
  · intro hauth
    rw [if_pos hauth] at hurl
    have hdata : req.url.data =
        r.baseURL.render.data ++ (('a' :: '/' :: ep.data) ++ qs.data) := by
      rw [hurl]
      simp [String.data_append, List.append_assoc]
    constructor
    · rw [hdata]
      rw [countASlash_append, hbase0]
      rw [show (('a' :: '/' :: ep.data) ++ qs.data : List Char) =
        'a' :: '/' :: (ep.data ++ qs.data) from by simp]
      rw [show countASlash ('a' :: '/' :: (ep.data ++ qs.data)) =
        1 + countASlash ('/' :: (ep.data ++ qs.data)) from by
          rw [show countASlash ('a' :: '/' :: (ep.data ++ qs.data)) =
            (if 'a' = 'a' ∧ '/' = '/' then 1 else 0) +
              countASlash ('/' :: (ep.data ++ qs.data)) from rfl]
          rw [if_pos (by exact ⟨rfl, rfl⟩)]]
      rw [show ('/' :: (ep.data ++ qs.data) : List Char) =
        ['/'] ++ (ep.data ++ qs.data) from rfl]
      rw [countASlash_append, countASlash_append, hep, hqs0]
      rw [if_neg (by
          rintro ⟨h1, h2⟩
          first
          | (rw [hnota] at h1; cases h1)
          | (rw [hqsh] at h2; cases h2)
          | exact absurd h1 (by decide)),
        if_neg (by
          rintro ⟨h1, h2⟩
          first
          | (rw [hnota] at h1; cases h1)
          | (rw [hqsh] at h2; cases h2)
          | exact absurd h1 (by decide)),
        if_neg (by
          rintro ⟨h1, h2⟩
          first
          | (rw [hnota] at h1; cases h1)
          | (rw [hqsh] at h2; cases h2)
          | exact absurd h1 (by decide))]
      rfl
    · exact ⟨ep.data ++ qs.data, by rw [hdata]; simp⟩
  · intro hnoauth
    rw [if_neg (by simp [hnoauth])] at hurl
    have hdata : req.url.data =
        r.baseURL.render.data ++ (ep.data ++ qs.data) := by
      rw [hurl]
      simp [String.data_append, List.append_assoc]
    rw [hdata]
    rw [countASlash_append, countASlash_append, hbase0, hep, hqs0]
    rw [if_neg (by
        rintro ⟨h1, h2⟩
        first
        | (rw [hnota] at h1; cases h1)
        | (rw [hqsh] at h2; cases h2)),
      if_neg (by
        rintro ⟨h1, h2⟩
        first
        | (rw [hnota] at h1; cases h1)
        | (rw [hqsh] at h2; cases h2))]

/-- Witness for C3 as amended: the authenticated example client against
base `http://example.com/` and endpoint `projects/` yields a URL with the
segment exactly once, right after the base. -/
theorem auth_prefix_once_after_base_witness :
    rBasic.hasAuth = true ∧
    ∃ req, rBasic.newRequest "GET" "projects/" none = .ok req ∧
      countASlash req.url.data = 1 ∧
      ∃ tail, req.url.data =
        rBasic.baseURL.render.data ++ ('a' :: '/' :: tail) := by
  refine ⟨rfl, ?_⟩
  obtain ⟨h1, _⟩ := auth_prefix_once_after_base rBasic "GET" "projects/" none
    { method := "GET", url := "http://example.com/a/projects/",
      contentType := none, accept := some "application/json", cookies := [],
      basicAuth := some ("admin", "secret"), body := none }
    rfl (by decide) (by decide) (by decide) (by decide)
  obtain ⟨hc, ht⟩ := h1 rfl
  exact ⟨_, rfl, hc, ht⟩

end GoGerrit
